import Mathlib

/-!
Shallow embedding of the selection / voxel-grid geometry core of the
voxel-editor repository.  The code under `src/renderer.rs` is translated
directly; the geometry and voxel-store collaborators it uses
(`Cuboid::new`, `Cuboid::corner_points`, `Cuboid::containing_cube`,
`Plane`, `VoxelManager`'s store and accessors) live in repository files
that are not available, so those are modelled from the specification and
marked as such in their doc comments.  Continuous coordinates (`f32` in
the source) are modelled as exact rationals `ℚ`; the operations the
claims exercise (floor, ceil, add, min, max) are exact on them.
-/

namespace VoxelEditor

/-- Three-component vector of rational coordinates, standing in for the
source's `cgmath::Vector3<f32>`. -/
@[ext]
structure Vec3 where
  x : ℚ
  y : ℚ
  z : ℚ
deriving DecidableEq, Inhabited

instance : Add Vec3 :=
  ⟨fun u v => ⟨u.x + v.x, u.y + v.y, u.z + v.z⟩⟩

instance : Sub Vec3 :=
  ⟨fun u v => ⟨u.x - v.x, u.y - v.y, u.z - v.z⟩⟩

/-- Componentwise order on `Vec3`, used to state bounding-box facts. -/
def Vec3.le (u v : Vec3) : Prop :=
  u.x ≤ v.x ∧ u.y ≤ v.y ∧ u.z ≤ v.z

instance (u v : Vec3) : Decidable (Vec3.le u v) := by
  unfold Vec3.le; infer_instance

/-- RGBA color, the source's `[f32; 4]`. -/
abbrev Color : Type := ℚ × ℚ × ℚ × ℚ

/-- `const RED: [f32; 4] = [1.0, 0.0, 0.0, 1.0];` (renderer.rs line 10). -/
def RED : Color := (1, 0, 0, 1)

/-- `const HALF_ALPHA_RED: [f32; 4] = [1.0, 0.0, 0.0, 0.2];` (renderer.rs line 11). -/
def HALF_ALPHA_RED : Color := (1, 0, 0, 1/5)

/-- The source's `Vertex { _pos: [f32; 4], _col: [f32; 4] }`. -/
structure Vertex where
  _pos : ℚ × ℚ × ℚ × ℚ
  _col : Color
deriving DecidableEq

/-- `fn vertex(pos: [f32; 3], col: [f32; 4]) -> Vertex` (renderer.rs):
position is extended with a homogeneous `w = 1`. -/
def vertex (pos : Vec3) (col : Color) : Vertex :=
  { _pos := (pos.x, pos.y, pos.z, 1), _col := col }

/-- The source's `Cuboid { origin, extents, color }` (geometry collaborator);
the field layout is given by the spec's Box data model. -/
@[ext]
structure Cuboid where
  origin : Vec3
  extents : Vec3
  color : Color
deriving DecidableEq

/-- Modelled from the spec: `Cuboid::new` is the plain constructor of the
Box value `{ origin, extents, color }` (geometry source file absent). -/
def Cuboid.new (origin extents : Vec3) (color : Color) : Cuboid :=
  ⟨origin, extents, color⟩

/-- Modelled from the spec: the fixed 0/1 mask enumeration of the eight
cube corners ("standard cube corner numbering", spec 4.2): corners 0 to 3
trace one face, corner k+4 is corner k shifted along the third axis, so
that the face table of `Cuboid::vertices` pairs corner i with corner i+4
on the four side faces. -/
def cornerMasks : List Vec3 :=
  [⟨0, 0, 0⟩, ⟨1, 0, 0⟩, ⟨1, 1, 0⟩, ⟨0, 1, 0⟩,
   ⟨0, 0, 1⟩, ⟨1, 0, 1⟩, ⟨1, 1, 1⟩, ⟨0, 1, 1⟩]

/-- Componentwise product, the `⊙` of the spec's corner formula. -/
def Vec3.hadamard (u v : Vec3) : Vec3 :=
  ⟨u.x * v.x, u.y * v.y, u.z * v.z⟩

/-- Modelled from the spec: `corners() -> [Point3; 8]`, corner k =
`origin + extents ⊙ mask(k)` over the fixed mask enumeration
(geometry source file absent). -/
def Cuboid.corner_points (c : Cuboid) : List Vec3 :=
  cornerMasks.map (fun m => c.origin + c.extents.hadamard m)

/-- `Cuboid::vertices` (renderer.rs lines 138-176): the 24 pushes, in
source order, of `vertex(corner_points[k].into(), color)` for the face
table 0,1,2,3 / 1,0,4,5 / 2,1,5,6 / 3,2,6,7 / 3,0,4,7 / 4,5,6,7. -/
def Cuboid.vertices (c : Cuboid) : List Vertex :=
  let cp := c.corner_points
  let color := c.color
  [vertex (cp.getD 0 default) color,
   vertex (cp.getD 1 default) color,
   vertex (cp.getD 2 default) color,
   vertex (cp.getD 3 default) color,
   vertex (cp.getD 1 default) color,
   vertex (cp.getD 0 default) color,
   vertex (cp.getD 4 default) color,
   vertex (cp.getD 5 default) color,
   vertex (cp.getD 2 default) color,
   vertex (cp.getD 1 default) color,
   vertex (cp.getD 5 default) color,
   vertex (cp.getD 6 default) color,
   vertex (cp.getD 3 default) color,
   vertex (cp.getD 2 default) color,
   vertex (cp.getD 6 default) color,
   vertex (cp.getD 7 default) color,
   vertex (cp.getD 3 default) color,
   vertex (cp.getD 0 default) color,
   vertex (cp.getD 4 default) color,
   vertex (cp.getD 7 default) color,
   vertex (cp.getD 4 default) color,
   vertex (cp.getD 5 default) color,
   vertex (cp.getD 6 default) color,
   vertex (cp.getD 7 default) color]

/-- The face-to-corner table exactly as the spec states it (4.2): six
faces of four corner indices each. -/
def specFaceCorners : List (List ℕ) :=
  [[0, 1, 2, 3], [1, 0, 4, 5], [2, 1, 5, 6], [3, 2, 6, 7], [3, 0, 4, 7], [4, 5, 6, 7]]

/-- `generate_cursor_vertices` (renderer.rs lines 200-208): the cuboid's
24 render vertices paired with the fixed triangulation index list. -/
def generate_cursor_vertices (cuboid : Cuboid) : List Vertex × List ℕ :=
  (cuboid.vertices,
   [0, 1, 2, 2, 3, 0,
    4, 5, 6, 6, 7, 4,
    8, 9, 10, 10, 11, 8,
    12, 13, 14, 14, 15, 12,
    16, 17, 18, 18, 19, 16,
    20, 21, 22, 22, 23, 20])

/-- Componentwise minimum of two points. -/
def vmin (u v : Vec3) : Vec3 :=
  ⟨min u.x v.x, min u.y v.y, min u.z v.z⟩

/-- Componentwise maximum of two points. -/
def vmax (u v : Vec3) : Vec3 :=
  ⟨max u.x v.x, max u.y v.y, max u.z v.z⟩

/-- Running componentwise minimum of a point and a list of points. -/
def vmins (p : Vec3) (l : List Vec3) : Vec3 :=
  l.foldl vmin p

/-- Running componentwise maximum of a point and a list of points. -/
def vmaxs (p : Vec3) (l : List Vec3) : Vec3 :=
  l.foldl vmax p

/-- Modelled from the spec: `containing(other) -> Box` (geometry source
file absent) computes the componentwise min and max over the 16 corner
points, 8 from self and 8 from other, and returns the Box with origin
the min and extents max minus min.  The running min and max start from
self's origin, which is exactly corner 0 of self (mask `(0,0,0)`), so
they range over precisely the 16 corner points.  The spec does not state
the result's color; it is modelled as the translucent selection color
used at the only call site, which keeps the result a symmetric function
of the two inputs as the spec's commutativity property requires. -/
def Cuboid.containing_cube (a b : Cuboid) : Cuboid :=
  let pts := a.corner_points ++ b.corner_points
  let lo := vmins a.origin pts
  let hi := vmaxs a.origin pts
  ⟨lo, hi - lo, HALF_ALPHA_RED⟩

/-- `Plane` (geometry collaborator): the spec's FaceBasis record of a
face normal and two in-plane tangent vectors. -/
structure Plane where
  normal : Vec3
  left : Vec3
  down : Vec3

/-- `Renderer::get_grid_pos` (renderer.rs lines 522-526): floor on x,
ceiling on y and z, returned as a continuous vector. -/
def Renderer.get_grid_pos (world_pos : Vec3) : Vec3 :=
  ⟨((⌊world_pos.x⌋ : ℤ) : ℚ), ((⌈world_pos.y⌉ : ℤ) : ℚ), ((⌈world_pos.z⌉ : ℤ) : ℚ)⟩

/-- The selection-relevant mutable state of `Renderer` (renderer.rs):
the cursor visibility flag, the hover cursor box, the committed drag box,
and the contents of the cursor pipeline's vertex buffer.  The GPU
pipeline handles, camera and swapchain are external collaborators and
carry no selection state. -/
structure RendererState where
  render_cursor : Bool
  cursor_cube : Cuboid
  draw_cube : Option Cuboid
  cursor_vertex_buf : List Vertex

/-- `Renderer::update_cursor_pos` (renderer.rs lines 528-549): with a
hit plane, rebuild the cursor cube at the snapped position, write its
geometry to the cursor vertex buffer and enable cursor rendering; with
no plane, only disable cursor rendering. -/
def Renderer.update_cursor_pos (s : RendererState) (pos : Vec3)
    (plane : Option Plane) : RendererState :=
  match plane with
  | some plane =>
      let cursor_cube :=
        Cuboid.new (Renderer.get_grid_pos pos)
          (plane.left + plane.down + plane.normal) HALF_ALPHA_RED
      { s with
        cursor_cube := cursor_cube
        cursor_vertex_buf := cursor_cube.vertices
        render_cursor := true }
  | none => { s with render_cursor := false }

/-- `Renderer::update_draw_rectangle` (renderer.rs lines 551-574): with a
hit plane, build the drag-end cube at the snapped position, take the
containing cube of the current cursor cube and the end cube, write its
geometry to the cursor vertex buffer, store it as the committed draw
cube and enable cursor rendering; with no plane, only disable cursor
rendering. -/
def Renderer.update_draw_rectangle (s : RendererState) (pos : Vec3)
    (plane : Option Plane) : RendererState :=
  match plane with
  | some plane =>
      let end_cube :=
        Cuboid.new (Renderer.get_grid_pos pos)
          (plane.left + plane.down + plane.normal) HALF_ALPHA_RED
      let draw_cube := s.cursor_cube.containing_cube end_cube
      { s with
        cursor_vertex_buf := draw_cube.vertices
        draw_cube := some draw_cube
        render_cursor := true }
  | none => { s with render_cursor := false }

/-- The voxel store's per-cell payload (`desc` in renderer.rs line 185):
a present voxel's color. -/
structure CubeDescriptor where
  color : Color
deriving DecidableEq

/-- Modelled from the spec: `VoxelManager` (voxel-store source file
absent) is a dense cube of side `extent` of optional colored voxels,
addressed by `(x, y, z)` with every axis in `[0, extent)`; renderer.rs
reads it as `self.cubes[x][y][z]`. -/
structure VoxelManager where
  extent : ℕ
  cubes : ℕ → ℕ → ℕ → Option CubeDescriptor

/-- Modelled from the spec: a fresh empty grid of the given side
(`VoxelManager::new(mesh_count)`, renderer.rs line 505). -/
def VoxelManager.new (extent : ℕ) : VoxelManager :=
  ⟨extent, fun _ _ _ => none⟩

/-- The failure result of a rejected grid mutation (spec section 7). -/
inductive GridError where
  | outOfBounds
deriving DecidableEq

/-- Whether an index lies inside `[0, extent)` on every axis. -/
def VoxelManager.inBounds (m : VoxelManager) (x y z : ℕ) : Prop :=
  x < m.extent ∧ y < m.extent ∧ z < m.extent

instance (m : VoxelManager) (x y z : ℕ) : Decidable (m.inBounds x y z) := by
  unfold VoxelManager.inBounds; infer_instance

/-- Modelled from the spec: `set(x, y, z, color)` is bounds-checked; in
bounds it stores the colored voxel, out of bounds it rejects the
mutation, leaves the grid unchanged and reports OutOfBounds. -/
def VoxelManager.set (m : VoxelManager) (x y z : ℕ) (color : Color) :
    VoxelManager × Except GridError Unit :=
  if m.inBounds x y z then
    ({ m with
       cubes := fun a b c =>
         if a = x ∧ b = y ∧ c = z then some ⟨color⟩ else m.cubes a b c },
     .ok ())
  else (m, .error .outOfBounds)

/-- Modelled from the spec: `clear(x, y, z)` is bounds-checked; in
bounds it empties the slot, out of bounds it rejects the mutation,
leaves the grid unchanged and reports OutOfBounds. -/
def VoxelManager.clear (m : VoxelManager) (x y z : ℕ) :
    VoxelManager × Except GridError Unit :=
  if m.inBounds x y z then
    ({ m with
       cubes := fun a b c =>
         if a = x ∧ b = y ∧ c = z then none else m.cubes a b c },
     .ok ())
  else (m, .error .outOfBounds)

/-- Modelled from the spec: `get(x, y, z) -> Option<color>` is
bounds-checked and returns nothing out of bounds. -/
def VoxelManager.get (m : VoxelManager) (x y z : ℕ) : Option Color :=
  if m.inBounds x y z then (m.cubes x y z).map CubeDescriptor.color else none

/-- `VoxelManager::vertices` (renderer.rs lines 178-198): scan every
slot of the dense cube in x, y, z loop order and append, for each
present voxel, the 24 render vertices of the unit cuboid at its
position with its stored color. -/
def VoxelManager.vertices (m : VoxelManager) : List Vertex :=
  (List.range m.extent).flatMap fun x =>
    (List.range m.extent).flatMap fun y =>
      (List.range m.extent).flatMap fun z =>
        match m.cubes x y z with
        | some desc =>
            (Cuboid.new ⟨(x : ℚ), (y : ℚ), (z : ℚ)⟩ ⟨1, 1, 1⟩ desc.color).vertices
        | none => []

/-- All slot indices of the dense cube, in the scan order of
`VoxelManager::vertices`. -/
def VoxelManager.slots (m : VoxelManager) : List (ℕ × ℕ × ℕ) :=
  (List.range m.extent).flatMap fun x =>
    (List.range m.extent).flatMap fun y =>
      (List.range m.extent).map fun z => (x, y, z)

/-- The number of present voxels: slots of the dense cube whose payload
is present. -/
def VoxelManager.presentCount (m : VoxelManager) : ℕ :=
  m.slots.countP fun t => (m.cubes t.1 t.2.1 t.2.2).isSome

/-! ### Componentwise lemmas for the vector operations -/

@[simp]
theorem Vec3.add_x (u v : Vec3) : (u + v).x = u.x + v.x := rfl

@[simp]
theorem Vec3.add_y (u v : Vec3) : (u + v).y = u.y + v.y := rfl

@[simp]
theorem Vec3.add_z (u v : Vec3) : (u + v).z = u.z + v.z := rfl

@[simp]
theorem Vec3.sub_x (u v : Vec3) : (u - v).x = u.x - v.x := rfl

@[simp]
theorem Vec3.sub_y (u v : Vec3) : (u - v).y = u.y - v.y := rfl

@[simp]
theorem Vec3.sub_z (u v : Vec3) : (u - v).z = u.z - v.z := rfl

@[simp]
theorem Vec3.hadamard_x (u v : Vec3) : (u.hadamard v).x = u.x * v.x := rfl

@[simp]
theorem Vec3.hadamard_y (u v : Vec3) : (u.hadamard v).y = u.y * v.y := rfl

@[simp]
theorem Vec3.hadamard_z (u v : Vec3) : (u.hadamard v).z = u.z * v.z := rfl

@[simp]
theorem vmin_x (u v : Vec3) : (vmin u v).x = min u.x v.x := rfl

@[simp]
theorem vmin_y (u v : Vec3) : (vmin u v).y = min u.y v.y := rfl

@[simp]
theorem vmin_z (u v : Vec3) : (vmin u v).z = min u.z v.z := rfl

@[simp]
theorem vmax_x (u v : Vec3) : (vmax u v).x = max u.x v.x := rfl

@[simp]
theorem vmax_y (u v : Vec3) : (vmax u v).y = max u.y v.y := rfl

@[simp]
theorem vmax_z (u v : Vec3) : (vmax u v).z = max u.z v.z := rfl

/-! ### The componentwise order -/

theorem Vec3.le_refl (u : Vec3) : u.le u :=
  ⟨le_rfl, le_rfl, le_rfl⟩

theorem Vec3.le_trans {u v w : Vec3} (h : u.le v) (h' : v.le w) : u.le w :=
  ⟨h.1.trans h'.1, h.2.1.trans h'.2.1, h.2.2.trans h'.2.2⟩

theorem Vec3.le_antisymmetry {u v : Vec3} (h : u.le v) (h' : v.le u) : u = v := by
  ext
  · exact le_antisymm h.1 h'.1
  · exact le_antisymm h.2.1 h'.2.1
  · exact le_antisymm h.2.2 h'.2.2

theorem vmin_le_left (u v : Vec3) : (vmin u v).le u :=
  ⟨min_le_left _ _, min_le_left _ _, min_le_left _ _⟩

theorem vmin_le_right (u v : Vec3) : (vmin u v).le v :=
  ⟨min_le_right _ _, min_le_right _ _, min_le_right _ _⟩

theorem le_vmin {w u v : Vec3} (h : w.le u) (h' : w.le v) : w.le (vmin u v) :=
  ⟨le_min h.1 h'.1, le_min h.2.1 h'.2.1, le_min h.2.2 h'.2.2⟩

theorem left_le_vmax (u v : Vec3) : u.le (vmax u v) :=
  ⟨le_max_left _ _, le_max_left _ _, le_max_left _ _⟩

theorem right_le_vmax (u v : Vec3) : v.le (vmax u v) :=
  ⟨le_max_right _ _, le_max_right _ _, le_max_right _ _⟩

theorem vmax_le {w u v : Vec3} (h : u.le w) (h' : v.le w) : (vmax u v).le w :=
  ⟨max_le h.1 h'.1, max_le h.2.1 h'.2.1, max_le h.2.2 h'.2.2⟩

/-! ### Running minima and maxima over corner lists -/

theorem vmins_le_init : ∀ (l : List Vec3) (p : Vec3), (vmins p l).le p
  | [], p => Vec3.le_refl p
  | q :: t, p => Vec3.le_trans (vmins_le_init t (vmin p q)) (vmin_le_left p q)

theorem vmins_le_mem : ∀ (l : List Vec3) (p q : Vec3), q ∈ l → (vmins p l).le q := by
  intro l
  induction l with
  | nil => intro p q h; cases h
  | cons r t ih =>
      intro p q h
      rcases List.mem_cons.mp h with rfl | h
      · exact Vec3.le_trans (vmins_le_init t (vmin p q)) (vmin_le_right p q)
      · exact ih (vmin p r) q h

theorem le_vmins : ∀ (l : List Vec3) (w p : Vec3),
    w.le p → (∀ q ∈ l, w.le q) → w.le (vmins p l) := by
  intro l
  induction l with
  | nil => intro w p h _; exact h
  | cons r t ih =>
      intro w p hp hl
      exact ih w (vmin p r) (le_vmin hp (hl r (by simp)))
        fun q hq => hl q (by simp [hq])

theorem init_le_vmaxs : ∀ (l : List Vec3) (p : Vec3), p.le (vmaxs p l)
  | [], p => Vec3.le_refl p
  | q :: t, p => Vec3.le_trans (left_le_vmax p q) (init_le_vmaxs t (vmax p q))

theorem mem_le_vmaxs : ∀ (l : List Vec3) (p q : Vec3), q ∈ l → q.le (vmaxs p l) := by
  intro l
  induction l with
  | nil => intro p q h; cases h
  | cons r t ih =>
      intro p q h
      rcases List.mem_cons.mp h with rfl | h
      · exact Vec3.le_trans (right_le_vmax p q) (init_le_vmaxs t (vmax p q))
      · exact ih (vmax p r) q h

theorem vmaxs_le : ∀ (l : List Vec3) (w p : Vec3),
    p.le w → (∀ q ∈ l, q.le w) → (vmaxs p l).le w := by
  intro l
  induction l with
  | nil => intro w p h _; exact h
  | cons r t ih =>
      intro w p hp hl
      exact ih w (vmax p r) (vmax_le hp (hl r (by simp)))
        fun q hq => hl q (by simp [hq])

/-! ### Corner points and the containing cube -/

theorem origin_mem_corner_points (c : Cuboid) : c.origin ∈ c.corner_points := by
  have h : c.origin + c.extents.hadamard ⟨0, 0, 0⟩ = c.origin := by
    ext <;> simp
  simp only [Cuboid.corner_points, cornerMasks, List.map, List.mem_cons]
  exact Or.inl h.symm

theorem containing_cube_def (a b : Cuboid) :
    a.containing_cube b =
      ⟨vmins a.origin (a.corner_points ++ b.corner_points),
       vmaxs a.origin (a.corner_points ++ b.corner_points) -
         vmins a.origin (a.corner_points ++ b.corner_points),
       HALF_ALPHA_RED⟩ := rfl

theorem containing_cube_origin_add_extents (a b : Cuboid) :
    (a.containing_cube b).origin + (a.containing_cube b).extents =
      vmaxs a.origin (a.corner_points ++ b.corner_points) := by
  rw [containing_cube_def]
  ext <;> simp

theorem containing_cube_encloses (a b : Cuboid) :
    ∀ p ∈ a.corner_points ++ b.corner_points,
      (a.containing_cube b).origin.le p ∧
      p.le ((a.containing_cube b).origin + (a.containing_cube b).extents) := by
  intro p hp
  rw [containing_cube_origin_add_extents, containing_cube_def]
  exact ⟨vmins_le_mem _ _ _ hp, mem_le_vmaxs _ _ _ hp⟩

theorem containing_cube_minimal (a b : Cuboid) (lo hi : Vec3)
    (h : ∀ p ∈ a.corner_points ++ b.corner_points, lo.le p ∧ p.le hi) :
    lo.le (a.containing_cube b).origin ∧
    ((a.containing_cube b).origin + (a.containing_cube b).extents).le hi := by
  have hmem : a.origin ∈ a.corner_points ++ b.corner_points :=
    List.mem_append_left _ (origin_mem_corner_points a)
  rw [containing_cube_origin_add_extents, containing_cube_def]
  constructor
  · exact le_vmins _ _ _ (h _ hmem).1 fun q hq => (h q hq).1
  · exact vmaxs_le _ _ _ (h _ hmem).2 fun q hq => (h q hq).2

theorem containing_cube_extents_nonneg (a b : Cuboid) :
    Vec3.le ⟨0, 0, 0⟩ (a.containing_cube b).extents := by
  have hlo : (vmins a.origin (a.corner_points ++ b.corner_points)).le a.origin :=
    vmins_le_init _ _
  have hhi : a.origin.le (vmaxs a.origin (a.corner_points ++ b.corner_points)) :=
    init_le_vmaxs _ _
  have h := Vec3.le_trans hlo hhi
  rw [containing_cube_def]
  exact ⟨by simpa [sub_nonneg] using h.1,
         by simpa [sub_nonneg] using h.2.1,
         by simpa [sub_nonneg] using h.2.2⟩

theorem containing_cube_comm (a b : Cuboid) :
    a.containing_cube b = b.containing_cube a := by
  have key : ∀ x y : Cuboid,
      (vmins x.origin (x.corner_points ++ y.corner_points)).le
        (vmins y.origin (y.corner_points ++ x.corner_points)) := by
    intro x y
    refine le_vmins _ _ _ ?_ ?_
    · exact vmins_le_mem _ _ _
        (List.mem_append_right _ (origin_mem_corner_points y))
    · intro q hq
      refine vmins_le_mem _ _ _ ?_
      rcases List.mem_append.mp hq with h | h
      · exact List.mem_append_right _ h
      · exact List.mem_append_left _ h
  have keymax : ∀ x y : Cuboid,
      (vmaxs x.origin (x.corner_points ++ y.corner_points)).le
        (vmaxs y.origin (y.corner_points ++ x.corner_points)) := by
    intro x y
    refine vmaxs_le _ _ _ ?_ ?_
    · exact mem_le_vmaxs _ _ _
        (List.mem_append_right _ (origin_mem_corner_points x))
    · intro q hq
      refine mem_le_vmaxs _ _ _ ?_
      rcases List.mem_append.mp hq with h | h
      · exact List.mem_append_right _ h
      · exact List.mem_append_left _ h
  have hlo := Vec3.le_antisymmetry (key a b) (key b a)
  have hhi := Vec3.le_antisymmetry (keymax a b) (keymax b a)
  rw [containing_cube_def, containing_cube_def, hlo, hhi]

/-! ### Voxel mesh length -/

theorem cuboid_vertices_length (c : Cuboid) : c.vertices.length = 24 := rfl

theorem flatMap_voxel_length (g : ℕ × ℕ × ℕ → Option CubeDescriptor) :
    ∀ ts : List (ℕ × ℕ × ℕ),
      (ts.flatMap fun t =>
        match g t with
        | some desc =>
            (Cuboid.new ⟨(t.1 : ℚ), (t.2.1 : ℚ), (t.2.2 : ℚ)⟩ ⟨1, 1, 1⟩ desc.color).vertices
        | none => []).length
      = 24 * ts.countP fun t => (g t).isSome := by
  intro ts
  induction ts with
  | nil => simp
  | cons t ts ih =>
      rw [List.flatMap_cons, List.length_append, ih, List.countP_cons]
      cases hgt : g t with
      | none => simp [hgt]
      | some desc =>
          simp only [hgt, cuboid_vertices_length, Option.isSome_some, if_pos]
          ring

theorem voxel_vertices_eq_flatMap (m : VoxelManager) :
    m.vertices = m.slots.flatMap fun t =>
      match m.cubes t.1 t.2.1 t.2.2 with
      | some desc =>
          (Cuboid.new ⟨(t.1 : ℚ), (t.2.1 : ℚ), (t.2.2 : ℚ)⟩ ⟨1, 1, 1⟩ desc.color).vertices
      | none => [] := by
  unfold VoxelManager.vertices VoxelManager.slots
  simp [List.flatMap_assoc, List.flatMap_map]

/-! ### The claims -/

/-- C1: for every Box, `Cuboid::vertices` returns exactly 24 vertices,
arranged as the six four-corner faces 0,1,2,3 / 1,0,4,5 / 2,1,5,6 /
3,2,6,7 / 3,0,4,7 / 4,5,6,7 over the box's 8 corner points, and every
one of the 24 vertices carries the Box's color. -/
theorem cuboid_vertices_face_table (c : Cuboid) :
    c.vertices.length = 24 ∧
    c.vertices = specFaceCorners.flatten.map
      (fun k => vertex (c.corner_points.getD k default) c.color) ∧
    c.vertices.map Vertex._col = List.replicate 24 c.color :=
  ⟨rfl, rfl, rfl⟩

/-- C2: `get_grid_pos` returns the cell (floor x, ceil y, ceil z) — by
its signature it cannot depend on any hit face — it is idempotent, and
it maps (2.4, 1.1, 3.9) to (2, 2, 4). -/
theorem get_grid_pos_spec :
    (∀ p : Vec3, Renderer.get_grid_pos p =
        ⟨((⌊p.x⌋ : ℤ) : ℚ), ((⌈p.y⌉ : ℤ) : ℚ), ((⌈p.z⌉ : ℤ) : ℚ)⟩) ∧
    (∀ p : Vec3,
        Renderer.get_grid_pos (Renderer.get_grid_pos p) = Renderer.get_grid_pos p) ∧
    Renderer.get_grid_pos ⟨2.4, 1.1, 3.9⟩ = ⟨2, 2, 4⟩ := by
  refine ⟨fun p => rfl, fun p => ?_, ?_⟩
  · unfold Renderer.get_grid_pos
    ext <;> simp
  · unfold Renderer.get_grid_pos
    ext
    · norm_num
    · rw [show ⌈(1.1 : ℚ)⌉ = 2 by rw [Int.ceil_eq_iff]; norm_num]; norm_num
    · rw [show ⌈(3.9 : ℚ)⌉ = 4 by rw [Int.ceil_eq_iff]; norm_num]; norm_num

/-- C3: `VoxelManager::vertices` has length 24 times the number of
present voxels; with extent 4 and only slot (1,2,3) set to RED it
returns exactly the 24 vertices of the unit-extent box at origin
(1,2,3), all carrying RED. -/
theorem voxel_manager_vertices_spec (m : VoxelManager) :
    m.vertices.length = 24 * m.presentCount ∧
    ((VoxelManager.new 4).set 1 2 3 RED).1.vertices =
      (Cuboid.new ⟨1, 2, 3⟩ ⟨1, 1, 1⟩ RED).vertices ∧
    ((VoxelManager.new 4).set 1 2 3 RED).1.vertices.length = 24 ∧
    ((VoxelManager.new 4).set 1 2 3 RED).1.vertices.map Vertex._col =
      List.replicate 24 RED := by
  have hscen : ((VoxelManager.new 4).set 1 2 3 RED).1.vertices =
      (Cuboid.new ⟨1, 2, 3⟩ ⟨1, 1, 1⟩ RED).vertices := by
    norm_num [VoxelManager.vertices, VoxelManager.set, VoxelManager.new,
      VoxelManager.inBounds, List.range_succ]
  refine ⟨?_, hscen, by rw [hscen]; rfl, by rw [hscen]; rfl⟩
  rw [voxel_vertices_eq_flatMap, VoxelManager.presentCount]
  exact flatMap_voxel_length _ _

/-- C4: with a hit plane, `update_draw_rectangle` builds the end box by
the same construction as the hover cursor (snapped origin, extents
`left + down + normal`, translucent red), commits the containing cube of
the current cursor cube and the end box to `draw_cube`, writes that
cube's geometry to the drag-preview vertex buffer, and enables cursor
rendering. -/
theorem update_draw_rectangle_hit (s : RendererState) (pos : Vec3) (plane : Plane) :
    Renderer.update_draw_rectangle s pos (some plane) =
      { s with
        draw_cube := some (s.cursor_cube.containing_cube
          (Cuboid.new (Renderer.get_grid_pos pos)
            (plane.left + plane.down + plane.normal) HALF_ALPHA_RED))
        cursor_vertex_buf := (s.cursor_cube.containing_cube
          (Cuboid.new (Renderer.get_grid_pos pos)
            (plane.left + plane.down + plane.normal) HALF_ALPHA_RED)).vertices
        render_cursor := true } ∧
    Cuboid.new (Renderer.get_grid_pos pos)
        (plane.left + plane.down + plane.normal) HALF_ALPHA_RED =
      (Renderer.update_cursor_pos s pos (some plane)).cursor_cube :=
  ⟨rfl, rfl⟩

/-- C5: with a hit plane, `update_cursor_pos` replaces the cursor box by
Box(origin snapped from the hit position, extents
`left + down + normal`, color translucent red (1, 0, 0, 0.2)) and
enables cursor rendering. -/
theorem update_cursor_pos_hit (s : RendererState) (pos : Vec3) (plane : Plane) :
    Renderer.update_cursor_pos s pos (some plane) =
      { s with
        cursor_cube := Cuboid.new (Renderer.get_grid_pos pos)
          (plane.left + plane.down + plane.normal) HALF_ALPHA_RED
        cursor_vertex_buf := (Cuboid.new (Renderer.get_grid_pos pos)
          (plane.left + plane.down + plane.normal) HALF_ALPHA_RED).vertices
        render_cursor := true } ∧
    HALF_ALPHA_RED = (1, 0, 0, 0.2) := by
  refine ⟨rfl, ?_⟩
  norm_num [HALF_ALPHA_RED]

/-- C6: the triangulation index list of `generate_cursor_vertices` is
exactly the pattern (0,1,2, 2,3,0) offset by 4k for each face k = 0..5,
two triangles per face. -/
theorem cursor_index_pattern (c : Cuboid) :
    (generate_cursor_vertices c).2 =
      (List.range 6).flatMap
        (fun k => ([0, 1, 2, 2, 3, 0] : List ℕ).map fun i => i + 4 * k) ∧
    (generate_cursor_vertices c).2 =
      [0, 1, 2, 2, 3, 0, 4, 5, 6, 6, 7, 4, 8, 9, 10, 10, 11, 8,
       12, 13, 14, 14, 15, 12, 16, 17, 18, 18, 19, 16, 20, 21, 22, 22, 23, 20] :=
  ⟨rfl, rfl⟩

/-- C7: `containing_cube` is commutative, its extents are non-negative,
it encloses every one of the 16 corner points of the two boxes, its
bounds are minimal among all componentwise bounds of those corner
points, and on unit boxes at origins (0,0,0) and (2,2,2) it yields
origin (0,0,0) and extents (3,3,3). -/
theorem containing_cube_spec (a b : Cuboid) :
    a.containing_cube b = b.containing_cube a ∧
    Vec3.le ⟨0, 0, 0⟩ (a.containing_cube b).extents ∧
    (∀ p ∈ a.corner_points ++ b.corner_points,
        (a.containing_cube b).origin.le p ∧
        p.le ((a.containing_cube b).origin + (a.containing_cube b).extents)) ∧
    (∀ lo hi : Vec3,
        (∀ p ∈ a.corner_points ++ b.corner_points, lo.le p ∧ p.le hi) →
        lo.le (a.containing_cube b).origin ∧
        ((a.containing_cube b).origin + (a.containing_cube b).extents).le hi) ∧
    ((Cuboid.new ⟨0, 0, 0⟩ ⟨1, 1, 1⟩ RED).containing_cube
        (Cuboid.new ⟨2, 2, 2⟩ ⟨1, 1, 1⟩ RED)).origin = ⟨0, 0, 0⟩ ∧
    ((Cuboid.new ⟨0, 0, 0⟩ ⟨1, 1, 1⟩ RED).containing_cube
        (Cuboid.new ⟨2, 2, 2⟩ ⟨1, 1, 1⟩ RED)).extents = ⟨3, 3, 3⟩ := by
  refine ⟨containing_cube_comm a b, containing_cube_extents_nonneg a b,
    containing_cube_encloses a b, containing_cube_minimal a b, ?_, ?_⟩ <;>
  · ext <;>
    · simp [Cuboid.containing_cube, Cuboid.corner_points, cornerMasks, Cuboid.new,
        Vec3.hadamard, vmins, vmaxs]
      norm_num [min_def, max_def]

/-- Witness for C7: the containing cube of the two scenario boxes has
its origin below the first box's origin (a corner of the inputs), and
the all-zero lower bound of all 16 corner points lies below that
origin. -/
theorem containing_cube_spec_witness :
    ((Cuboid.new ⟨0, 0, 0⟩ ⟨1, 1, 1⟩ RED).containing_cube
        (Cuboid.new ⟨2, 2, 2⟩ ⟨1, 1, 1⟩ RED)).origin.le
      (Cuboid.new ⟨0, 0, 0⟩ ⟨1, 1, 1⟩ RED).origin ∧
    Vec3.le ⟨0, 0, 0⟩
      ((Cuboid.new ⟨0, 0, 0⟩ ⟨1, 1, 1⟩ RED).containing_cube
        (Cuboid.new ⟨2, 2, 2⟩ ⟨1, 1, 1⟩ RED)).origin := by
  have h := containing_cube_spec (Cuboid.new ⟨0, 0, 0⟩ ⟨1, 1, 1⟩ RED)
    (Cuboid.new ⟨2, 2, 2⟩ ⟨1, 1, 1⟩ RED)
  constructor
  · exact (h.2.2.1 _ (List.mem_append_left _ (origin_mem_corner_points _))).1
  · refine (h.2.2.2.1 ⟨0, 0, 0⟩ ⟨9, 9, 9⟩ ?_).1
    intro p hp
    simp only [Cuboid.corner_points, cornerMasks, Cuboid.new, List.map,
      List.mem_append, List.mem_cons, List.not_mem_nil, or_false] at hp
    rcases hp with (rfl | rfl | rfl | rfl | rfl | rfl | rfl | rfl) |
      (rfl | rfl | rfl | rfl | rfl | rfl | rfl | rfl) <;>
    · refine ⟨⟨?_, ?_, ?_⟩, ⟨?_, ?_, ?_⟩⟩ <;> norm_num

/-- C8: with no hit plane, `update_cursor_pos` only disables cursor
rendering: the stored cursor box, the draw cube and the cursor vertex
buffer are all left unchanged. -/
theorem update_cursor_pos_miss (s : RendererState) (pos : Vec3) :
    Renderer.update_cursor_pos s pos none = { s with render_cursor := false } ∧
    (Renderer.update_cursor_pos s pos none).render_cursor = false ∧
    (Renderer.update_cursor_pos s pos none).cursor_cube = s.cursor_cube ∧
    (Renderer.update_cursor_pos s pos none).cursor_vertex_buf = s.cursor_vertex_buf :=
  ⟨rfl, rfl, rfl, rfl⟩

/-- C9: an index outside the grid on some axis makes `set` and `clear`
fail with OutOfBounds while returning the grid unchanged, and makes
`get` return nothing. -/
theorem voxel_out_of_bounds_spec (m : VoxelManager) (x y z : ℕ) (c : Color)
    (h : ¬ m.inBounds x y z) :
    (m.set x y z c).1 = m ∧
    (m.set x y z c).2 = .error .outOfBounds ∧
    (m.clear x y z).1 = m ∧
    (m.clear x y z).2 = .error .outOfBounds ∧
    m.get x y z = none := by
  simp [VoxelManager.set, VoxelManager.clear, VoxelManager.get, h]

/-- Witness for C9: the scenario input, `set(5,5,5,RED)` and
`clear(5,5,5)` on an extent-4 grid. -/
theorem voxel_out_of_bounds_witness :
    ¬ (VoxelManager.new 4).inBounds 5 5 5 ∧
    ((((VoxelManager.new 4).set 5 5 5 RED).1 = VoxelManager.new 4 ∧
      ((VoxelManager.new 4).set 5 5 5 RED).2 = .error .outOfBounds ∧
      ((VoxelManager.new 4).clear 5 5 5).1 = VoxelManager.new 4 ∧
      ((VoxelManager.new 4).clear 5 5 5).2 = .error .outOfBounds ∧
      (VoxelManager.new 4).get 5 5 5 = none)) :=
  ⟨by decide, voxel_out_of_bounds_spec (VoxelManager.new 4) 5 5 5 RED (by decide)⟩

/-- C10: with no hit plane, `update_draw_rectangle` only disables cursor
rendering, so `draw_cube` keeps its previous value; `update_cursor_pos`
never changes `draw_cube`; and `update_draw_rectangle` either keeps
`draw_cube` or sets it to some cube — neither update ever clears a
committed draw cube back to `none`. -/
theorem draw_cube_retention (s : RendererState) (pos : Vec3) :
    Renderer.update_draw_rectangle s pos none = { s with render_cursor := false } ∧
    (∀ p : Option Plane, (Renderer.update_cursor_pos s pos p).draw_cube = s.draw_cube) ∧
    (∀ p : Option Plane,
      (Renderer.update_draw_rectangle s pos p).draw_cube = s.draw_cube ∨
      ∃ d, (Renderer.update_draw_rectangle s pos p).draw_cube = some d) := by
  refine ⟨rfl, fun p => ?_, fun p => ?_⟩
  · cases p <;> rfl
  · cases p with
    | none => exact Or.inl rfl
    | some pl => exact Or.inr ⟨_, rfl⟩

end VoxelEditor
